import Mathlib

/-!
Shallow embedding of the core of the Quantum-Randomness-Generator-Demo
(src/app.py): the bit generator `generate_random_bits`, the statistics
function `bit_stats`, and the length-resolution logic of the `/generate`
request handler `api_generate`.  Machine bytes are `Fin 256`, Python
strings are `List Char` (or `String` where the value is opaque), Python
exceptions are `Except`, and the floating-point entropy is modelled over
the reals.
-/

/-- A byte as returned by the operating-system entropy source
(an element of Python's `bytes`, i.e. an integer in `range(256)`). -/
abbrev Byte := Fin 256

/-- Failure of the OS-backed cryptographically secure randomness source:
the exception raised by `secrets.token_bytes` when the OS entropy API
fails.  `generate_random_bits` contains no handler for it. -/
inductive EntropySourceUnavailable where
  | unavailable
  deriving DecidableEq

/-- The 8-bit binary representation of a byte, most significant bit
first: Python's `f"{b:08b}"` for `0 <= b < 256`. -/
def byteBits (b : Byte) : List Char :=
  (List.range 8).map fun j => if b.val / 2 ^ (7 - j) % 2 = 1 then '1' else '0'

/-- Shallow embedding of `generate_random_bits` (src/app.py lines 35-52).
The randomness source is passed as a function from the requested byte
count to the bytes it produced (or to an `EntropySourceUnavailable`
failure); the Python original calls `secrets.token_bytes(n_bytes)` once
with `n_bytes = (n_bits + 7) // 8` and has no exception handler, so a
source failure propagates. -/
def generate_random_bits
    (token_bytes : Nat → Except EntropySourceUnavailable (List Byte))
    (n_bits : Int) : Except EntropySourceUnavailable (List Char) :=
  if n_bits ≤ 0 then .ok []
  else
    match token_bytes ((n_bits.toNat + 7) / 8) with
    | .error e => .error e
    | .ok random_bytes => .ok ((random_bytes.map byteBits).flatten.take n_bits.toNat)

/-- Bit `i` of the bit string obtained from the byte list `bs`:
bit `7 - i % 8` (most significant bit first) of byte `i / 8`. -/
def bitAt (bs : List Byte) (i : Nat) : Char :=
  if (bs.getD (i / 8) 0).val / 2 ^ (7 - i % 8) % 2 = 1 then '1' else '0'

/-- The statistics dictionary returned by `bit_stats`. -/
structure BitStats where
  length : Nat
  zeros : Nat
  ones : Nat
  entropy : ℝ

/-- The guarded entropy term `_h` nested in `bit_stats`:
`-(p * math.log2(p)) if p > 0 else 0.0`. -/
noncomputable def _h (p : ℝ) : ℝ :=
  if p > 0 then -(p * Real.logb 2 p) else 0

/-- Shallow embedding of `bit_stats` (src/app.py lines 55-72):
`zeros = bits.count("0")`, `ones = n - zeros`,
`p0 = zeros / n if n else 0.0`, `p1 = ones / n if n else 0.0`,
`entropy = _h(p0) + _h(p1)`. -/
noncomputable def bit_stats (bits : List Char) : BitStats :=
  let n := bits.length
  let zeros := bits.count '0'
  let ones := n - zeros
  let p0 : ℝ := if n ≠ 0 then (zeros : ℝ) / n else 0
  let p1 : ℝ := if n ≠ 0 then (ones : ℝ) / n else 0
  { length := n, zeros := zeros, ones := ones, entropy := _h p0 + _h p1 }

/-- A Python value of one of the shapes that can reach the `length`
variable of `api_generate`: `None`, a bool, an int, or a string. -/
inductive PyVal where
  | none
  | bool (b : Bool)
  | int (i : Int)
  | str (s : String)
  deriving DecidableEq

/-- Python truthiness of a `PyVal`: `None` and `False` are falsy, `0` is
falsy, the empty string is falsy, everything else is truthy. -/
def PyVal.truthy : PyVal → Bool
  | .none => false
  | .bool b => b
  | .int i => i != 0
  | .str s => s != ""

/-- Python `a or b`: `a` if `a` is truthy, otherwise `b`. -/
def pyOr (a b : PyVal) : PyVal := if a.truthy then a else b

/-- Python `a and b`: `b` if `a` is truthy, otherwise `a`. -/
def pyAnd (a b : PyVal) : PyVal := if a.truthy then b else a

/-- Python whitespace stripped by `int()` around a numeric literal. -/
def pyWhitespace (c : Char) : Bool :=
  c == ' ' || c == '\t' || c == '\n' || c == '\r'

/-- Both-ends whitespace strip, as `int()` applies to a string. -/
def pyStrip (l : List Char) : List Char :=
  ((l.dropWhile pyWhitespace).reverse.dropWhile pyWhitespace).reverse

/-- Python's `int()` on a string: strip surrounding whitespace, accept an
optional sign followed by one or more decimal digits, otherwise raise
`ValueError` (modelled as `Option.none`). -/
def pyIntOfString (s : String) : Option Int :=
  let t := pyStrip s.data
  let signCore : Int × List Char :=
    match t with
    | '-' :: rest => (-1, rest)
    | '+' :: rest => (1, rest)
    | _ => (1, t)
  if signCore.2 ≠ [] ∧ signCore.2.all Char.isDigit then
    Option.some (signCore.1 *
      (signCore.2.foldl (fun acc c => 10 * acc + (c.toNat - '0'.toNat)) 0 : Nat))
  else Option.none

/-- Python's `int()` on a `PyVal`: bools convert to 0/1, ints are the
identity, strings are parsed, `None` raises (`Option.none`). -/
def pyInt : PyVal → Option Int
  | .none => Option.none
  | .bool b => Option.some (if b then 1 else 0)
  | .int i => Option.some i
  | .str s => pyIntOfString s

/-- Cap on the number of bits per request (`MAX_BITS` in `api_generate`). -/
def MAX_BITS : Int := 262144

/-- Default bit count (`DEFAULT_BITS` in `api_generate`). -/
def DEFAULT_BITS : Int := 256

/-- The parts of the Flask request object read by `api_generate`:
`request.args.get("length")` (the query parameter, absent or a string),
`request.is_json`, and `request.json.get("length")` (the JSON body field,
`PyVal.none` when the key is absent or the body is not consulted). -/
structure GenRequest where
  args_length : Option String
  is_json : Bool
  json_length : PyVal

/-- Shallow embedding of the length resolution of `api_generate`
(src/app.py lines 100-109):
`length = request.args.get("length") or (request.is_json and request.json.get("length"))`;
`n_bits = int(length) if length is not None else DEFAULT_BITS`, with any
conversion exception replaced by `DEFAULT_BITS`; finally
`n_bits = max(1, min(int(n_bits), MAX_BITS))`. -/
def resolve_length (req : GenRequest) : Int :=
  let argv : PyVal :=
    match req.args_length with
    | Option.none => PyVal.none
    | Option.some s => PyVal.str s
  let length := pyOr argv (pyAnd (PyVal.bool req.is_json) req.json_length)
  let n_bits : Int :=
    if length = PyVal.none then DEFAULT_BITS
    else
      match pyInt length with
      | Option.some k => k
      | Option.none => DEFAULT_BITS
  max 1 (min n_bits MAX_BITS)

/-- A deterministic stand-in entropy source that answers a request for
`k` bytes with `k` copies of the byte `0xA5`. -/
def demoSource (k : Nat) : Except EntropySourceUnavailable (List Byte) :=
  .ok (List.replicate k (165 : Byte))

/-- An entropy source whose every draw fails. -/
def failSource (_ : Nat) : Except EntropySourceUnavailable (List Byte) :=
  .error .unavailable

/-- A concrete request carrying the query string value 99999999 and no
JSON body. -/
def bigRequest : GenRequest :=
  { args_length := Option.some "99999999", is_json := false,
    json_length := PyVal.none }

/-- C9: for every integer `n <= 0`, `generate_random_bits` returns the
empty string and never consults the randomness source: the result is the
same for every source, including one whose every draw fails. -/
theorem generate_random_bits_nonpositive (n : Int) (hn : n ≤ 0)
    (src : Nat → Except EntropySourceUnavailable (List Byte)) :
    generate_random_bits src n = .ok [] := by
  simp [generate_random_bits, hn]

/-- Witness for C9: at `n = -5` even the always-failing source yields the
empty string. -/
theorem generate_random_bits_nonpositive_witness :
    generate_random_bits failSource (-5) = .ok [] :=
  generate_random_bits_nonpositive (-5) (by decide) failSource

/-- C8: if the randomness source fails on the requested byte count, the
failure propagates out of `generate_random_bits` unchanged: no fallback
generator, no bit sequence in the failure case. -/
theorem generate_random_bits_propagates_failure (n : Int) (hn : 0 < n)
    (src : Nat → Except EntropySourceUnavailable (List Byte))
    (e : EntropySourceUnavailable)
    (hsrc : src ((n.toNat + 7) / 8) = .error e) :
    generate_random_bits src n = .error e := by
  rw [generate_random_bits, if_neg (by omega), hsrc]

/-- Witness for C8: requesting one bit from the always-failing source
fails with `EntropySourceUnavailable`. -/
theorem generate_random_bits_propagates_failure_witness :
    generate_random_bits failSource 1 = .error .unavailable :=
  generate_random_bits_propagates_failure 1 (by decide) failSource .unavailable rfl

/-- C1 (code evaluation): a request with no `length` query parameter and
a non-JSON body resolves to 1, not the documented default 256 — the
`or`-chain turns the absent parameter into Python `False`,
`int(False) == 0`, and the clamp lifts 0 to 1.  An empty-string query
parameter (`?length=`), which fails to parse as an integer, takes the
same path. -/
theorem resolve_length_absent_param_is_one :
    resolve_length { args_length := Option.none, is_json := false,
                     json_length := PyVal.none } = 1 ∧
    resolve_length { args_length := Option.some "", is_json := false,
                     json_length := PyVal.none } = 1 ∧
    DEFAULT_BITS = 256 := by
  decide

/-- Bit lookup in a cons cell, first byte: positions below 8 read the
head byte, most significant bit first. -/
lemma bitAt_cons_lt (b : Byte) (rest : List Byte) (j : Nat) (hj : j < 8) :
    bitAt (b :: rest) j = if b.val / 2 ^ (7 - j) % 2 = 1 then '1' else '0' := by
  have h1 : j / 8 = 0 := Nat.div_eq_of_lt hj
  have h2 : j % 8 = j := Nat.mod_eq_of_lt hj
  simp [bitAt, h1, h2]

/-- Bit lookup in a cons cell, later bytes: position `8 + i` reads
position `i` of the tail. -/
lemma bitAt_cons_add (b : Byte) (rest : List Byte) (i : Nat) :
    bitAt (b :: rest) (8 + i) = bitAt rest i := by
  have h1 : (8 + i) / 8 = i / 8 + 1 := by omega
  have h2 : (8 + i) % 8 = i % 8 := by omega
  simp [bitAt, h1, h2]

/-- The first 8 positions of the `bitAt` bit string of a cons cell read
off exactly the 8-bit expansion of the head byte. -/
lemma range8_map_bitAt (b : Byte) (rest : List Byte) :
    (List.range 8).map (bitAt (b :: rest)) = byteBits b := by
  refine List.ext_getElem (by simp [byteBits]) ?_
  intro j h1 h2
  have hj : j < 8 := by simpa using h1
  simp only [byteBits, List.getElem_map, List.getElem_range]
  rw [bitAt_cons_lt b rest j hj]

/-- Positions at offset 8 of the `bitAt` bit string of a cons cell read
the bit string of the tail. -/
lemma shift_map_bitAt (b : Byte) (rest : List Byte) (m : Nat) :
    (List.range m).map (bitAt (b :: rest) ∘ fun x => 8 + x) =
      (List.range m).map (bitAt rest) := by
  refine List.map_congr_left ?_
  intro i _
  exact bitAt_cons_add b rest i

/-- Concatenating the 8-bit expansions of a byte list in byte order gives
exactly the bit string indexed by `bitAt`. -/
lemma flatten_map_byteBits (bs : List Byte) :
    (bs.map byteBits).flatten = (List.range (8 * bs.length)).map (bitAt bs) := by
  induction bs with
  | nil => simp
  | cons b rest ih =>
    rw [List.map_cons, List.flatten_cons, ih]
    have hlen : 8 * (b :: rest).length = 8 + 8 * rest.length := by
      simp [List.length_cons]; ring
    rw [hlen, List.range_add, List.map_append, List.map_map, range8_map_bitAt,
      shift_map_bitAt]

/-- Closed form of a successful generation: when the source answers the
requested count `(n + 7) / 8` with exactly that many bytes, the output is
the first `n` positions of the `bitAt` bit string. -/
lemma generate_random_bits_eq_map (n : Nat) (hn : 0 < n)
    (src : Nat → Except EntropySourceUnavailable (List Byte))
    (bs : List Byte) (hsrc : src ((n + 7) / 8) = .ok bs)
    (hlen : bs.length = (n + 7) / 8) :
    generate_random_bits src (n : Int) = .ok ((List.range n).map (bitAt bs)) := by
  have hmin : min n (8 * bs.length) = n := by
    rw [hlen]; omega
  rw [generate_random_bits, if_neg (by omega)]
  simp only [Int.toNat_natCast, hsrc]
  show Except.ok ((bs.map byteBits).flatten.take n) = _
  rw [flatten_map_byteBits, ← List.map_take, List.take_range, hmin]

/-- C3: for every positive `n`, the generator requests `(n + 7) / 8`
bytes (the ceiling of `n / 8`) from the source and, for every byte
sequence of that length the source could return, produces exactly the
first `n` positions of the bit string whose bit `i` is bit
`7 - i % 8` of byte `i / 8` — the 8-bit most-significant-bit-first
expansions concatenated in byte order, truncated to `n` symbols. -/
theorem generate_random_bits_bit_formula (n : Nat) (hn : 0 < n)
    (src : Nat → Except EntropySourceUnavailable (List Byte))
    (bs : List Byte) (hsrc : src ((n + 7) / 8) = .ok bs)
    (hlen : bs.length = (n + 7) / 8) :
    generate_random_bits src (n : Int) = .ok ((List.range n).map (bitAt bs)) :=
  generate_random_bits_eq_map n hn src bs hsrc hlen

/-- Witness for C3: three bits drawn from the single byte `0xA5 =
10100101` are its top three bits `101`. -/
theorem generate_random_bits_bit_formula_witness :
    generate_random_bits demoSource (3 : Nat) =
      .ok ((List.range 3).map (bitAt (List.replicate 1 (165 : Byte)))) :=
  generate_random_bits_bit_formula 3 (by decide) demoSource
    (List.replicate 1 (165 : Byte)) rfl rfl

/-- C2: for every `n` between 0 and `MAX_BITS`, when the source answers
the request with the right number of bytes the generator returns exactly
`n` characters, each of which is a zero or a one. -/
theorem generate_random_bits_length_alphabet (n : Nat)
    (hn : (n : Int) ≤ MAX_BITS)
    (src : Nat → Except EntropySourceUnavailable (List Byte))
    (bs : List Byte) (hsrc : src ((n + 7) / 8) = .ok bs)
    (hlen : bs.length = (n + 7) / 8) :
    ∃ bits : List Char, generate_random_bits src (n : Int) = .ok bits ∧
      bits.length = n ∧ ∀ c ∈ bits, c = '0' ∨ c = '1' := by
  rcases Nat.eq_zero_or_pos n with h0 | hpos
  · subst h0
    exact ⟨[], by simp [generate_random_bits], rfl, by simp⟩
  · refine ⟨(List.range n).map (bitAt bs),
      generate_random_bits_eq_map n hpos src bs hsrc hlen, by simp, ?_⟩
    intro c hc
    simp only [List.mem_map, List.mem_range] at hc
    obtain ⟨i, -, hi⟩ := hc
    unfold bitAt at hi
    split at hi
    · right; exact hi.symm
    · left; exact hi.symm

/-- Witness for C2: requesting 3 bits from the demo source yields 3
characters over the alphabet of zeros and ones. -/
theorem generate_random_bits_length_alphabet_witness :
    ∃ bits : List Char, generate_random_bits demoSource ((3 : Nat) : Int) = .ok bits ∧
      bits.length = 3 ∧ ∀ c ∈ bits, c = '0' ∨ c = '1' :=
  generate_random_bits_length_alphabet 3 (by decide) demoSource
    (List.replicate 1 (165 : Byte)) rfl rfl

/-- The zero count plus the count of characters different from zero is
the length of the string. -/
lemma count_zero_add_filter_ne (s : List Char) :
    s.count '0' + (s.filter (fun c => c != '0')).length = s.length := by
  induction s with
  | nil => simp
  | cons c cs ih =>
    by_cases h : c = '0' <;>
      simp [List.count_cons, List.filter_cons, h] <;> omega

/-- C4: for every bit string, `bit_stats` reports `zeros` as the number
of zero symbols, `ones` as the length minus `zeros`, and the two counts
sum to the length. -/
theorem bit_stats_counts (seq : List Char)
    (_hbits : ∀ c ∈ seq, c = '0' ∨ c = '1') :
    (bit_stats seq).zeros = seq.count '0' ∧
    (bit_stats seq).ones = seq.length - seq.count '0' ∧
    (bit_stats seq).zeros + (bit_stats seq).ones = (bit_stats seq).length := by
  refine ⟨rfl, rfl, ?_⟩
  have hz : seq.count '0' ≤ seq.length := List.count_le_length '0' seq
  show seq.count '0' + (seq.length - seq.count '0') = seq.length
  omega

/-- Witness for C4: the counts of the bit string 0110. -/
theorem bit_stats_counts_witness :
    (bit_stats ['0', '1', '1', '0']).zeros = (['0', '1', '1', '0'] : List Char).count '0' ∧
    (bit_stats ['0', '1', '1', '0']).ones =
      (['0', '1', '1', '0'] : List Char).length - (['0', '1', '1', '0'] : List Char).count '0' ∧
    (bit_stats ['0', '1', '1', '0']).zeros + (bit_stats ['0', '1', '1', '0']).ones =
      (bit_stats ['0', '1', '1', '0']).length :=
  bit_stats_counts ['0', '1', '1', '0'] (by decide)

/-- C10: `bit_stats` is defined on arbitrary strings: `zeros` counts the
zero characters, `ones` is the length minus that count — i.e. it counts
every character different from zero, not only ones — and the two counts
always sum to the length. -/
theorem bit_stats_arbitrary_strings (s : List Char) :
    (bit_stats s).zeros = s.count '0' ∧
    (bit_stats s).ones = s.length - s.count '0' ∧
    (bit_stats s).ones = (s.filter (fun c => c != '0')).length ∧
    (bit_stats s).zeros + (bit_stats s).ones = (bit_stats s).length := by
  have hz : s.count '0' ≤ s.length := List.count_le_length '0' s
  have hf := count_zero_add_filter_ne s
  refine ⟨rfl, rfl, ?_, ?_⟩
  · show s.length - s.count '0' = _
    omega
  · show s.count '0' + (s.length - s.count '0') = s.length
    omega

/-- C5: the entropy term is defined as zero at probability zero through
the explicit guard of `_h`, and on the empty string `bit_stats` returns
zero counts and zero entropy with no division by zero. -/
theorem bit_stats_zero_guard :
    _h 0 = 0 ∧
    bit_stats [] = { length := 0, zeros := 0, ones := 0, entropy := 0 } := by
  constructor
  · simp [_h]
  · simp [bit_stats, _h]

/-- On nonnegative arguments the guarded term is `negMulLog` rescaled
from natural log to base 2. -/
lemma _h_eq_negMulLog (p : ℝ) (hp : 0 ≤ p) :
    _h p = Real.negMulLog p / Real.log 2 := by
  rcases eq_or_lt_of_le hp with h | h
  · simp [_h, ← h]
  · simp only [_h, if_pos h, Real.negMulLog, ← Real.log_div_log]
    ring

/-- The entropy reported for a nonempty string is the binary entropy of
the empirical zero-frequency, rescaled to base 2. -/
lemma bit_stats_entropy_eq (bits : List Char) (hn : bits.length ≠ 0) :
    (bit_stats bits).entropy =
      Real.binEntropy ((bits.count '0' : ℝ) / bits.length) / Real.log 2 := by
  have hz : bits.count '0' ≤ bits.length := List.count_le_length '0' bits
  have hne : (bits.length : ℝ) ≠ 0 := Nat.cast_ne_zero.mpr hn
  have hp0 : (0:ℝ) ≤ (bits.count '0' : ℝ) / bits.length :=
    div_nonneg (Nat.cast_nonneg _) (Nat.cast_nonneg _)
  have hp1 : (0:ℝ) ≤ ((bits.length - bits.count '0' : ℕ) : ℝ) / bits.length :=
    div_nonneg (Nat.cast_nonneg _) (Nat.cast_nonneg _)
  have hq : ((bits.length - bits.count '0' : ℕ) : ℝ) / bits.length =
      1 - (bits.count '0' : ℝ) / bits.length := by
    rw [Nat.cast_sub hz, sub_div, div_self hne]
  show _h (if bits.length ≠ 0 then (bits.count '0' : ℝ) / bits.length else 0) +
      _h (if bits.length ≠ 0 then ((bits.length - bits.count '0' : ℕ) : ℝ) / bits.length else 0) = _
  rw [if_pos hn, if_pos hn, _h_eq_negMulLog _ hp0, _h_eq_negMulLog _ hp1, hq,
    div_add_div_same, ← Real.binEntropy_eq_negMulLog_add_negMulLog_one_sub]

/-- C6: the reported entropy always lies between 0 and 1, and on the
strings "", "0000" and "01" the function returns the spec's exact
values (exact over the reals, hence within any tolerance). -/
theorem bit_stats_entropy_bounds (bits : List Char) :
    (0 ≤ (bit_stats bits).entropy ∧ (bit_stats bits).entropy ≤ 1) ∧
    bit_stats [] = { length := 0, zeros := 0, ones := 0, entropy := 0 } ∧
    bit_stats ['0', '0', '0', '0'] = { length := 4, zeros := 4, ones := 0, entropy := 0 } ∧
    bit_stats ['0', '1'] = { length := 2, zeros := 1, ones := 1, entropy := 1 } := by
  refine ⟨?_, by simp [bit_stats, _h], ?_, ?_⟩
  · by_cases hn : bits.length = 0
    · have hnil : bits = [] := List.length_eq_zero.mp hn
      subst hnil
      constructor <;> simp [bit_stats, _h]
    · rw [bit_stats_entropy_eq bits hn]
      have hz : bits.count '0' ≤ bits.length := List.count_le_length '0' bits
      have hlpos : (0:ℝ) < bits.length :=
        Nat.cast_pos.mpr (Nat.pos_of_ne_zero hn)
      have hp0 : (0:ℝ) ≤ (bits.count '0' : ℝ) / bits.length :=
        div_nonneg (Nat.cast_nonneg _) (Nat.cast_nonneg _)
      have hp1 : (bits.count '0' : ℝ) / bits.length ≤ 1 := by
        rw [div_le_one hlpos]
        exact_mod_cast hz
      have hlog : (0:ℝ) < Real.log 2 := Real.log_pos (by norm_num)
      constructor
      · exact div_nonneg (Real.binEntropy_nonneg hp0 hp1) hlog.le
      · rw [div_le_one hlog]
        exact Real.binEntropy_le_log_two
  · have hent : (bit_stats ['0', '0', '0', '0']).entropy = 0 := by
      rw [bit_stats_entropy_eq _ (by decide)]
      have hc : (['0', '0', '0', '0'] : List Char).count '0' = 4 := by decide
      have hlen : (['0', '0', '0', '0'] : List Char).length = 4 := by decide
      rw [hc, hlen]
      push_cast
      norm_num [Real.binEntropy_one]
    have hshape : bit_stats ['0', '0', '0', '0'] =
        ⟨4, 4, 0, (bit_stats ['0', '0', '0', '0']).entropy⟩ := rfl
    rw [hshape, hent]
  · have hent : (bit_stats ['0', '1']).entropy = 1 := by
      rw [bit_stats_entropy_eq _ (by decide)]
      have hc : (['0', '1'] : List Char).count '0' = 1 := by decide
      have hlen : (['0', '1'] : List Char).length = 2 := by decide
      rw [hc, hlen]
      push_cast
      rw [one_div, Real.binEntropy_two_inv]
      exact div_self (Real.log_pos (by norm_num)).ne'
    have hshape : bit_stats ['0', '1'] =
        ⟨2, 1, 1, (bit_stats ['0', '1']).entropy⟩ := rfl
    rw [hshape, hent]

/-- The empty string does not parse as a Python int. -/
lemma pyIntOfString_empty : pyIntOfString "" = Option.none := by decide

/-- C7: every raw value that parses as an integer is silently clamped
into the interval from 1 to `MAX_BITS` — whether it arrives through the
query string or as a JSON body integer — and for every request
whatsoever the resolved effective length lies between 1 and `MAX_BITS`. -/
theorem resolve_length_clamps (req : GenRequest) :
    (∀ s k, req.args_length = Option.some s → pyIntOfString s = Option.some k →
        resolve_length req = max 1 (min k MAX_BITS)) ∧
    (∀ k, req.args_length = Option.none → req.is_json = true →
        req.json_length = PyVal.int k →
        resolve_length req = max 1 (min k MAX_BITS)) ∧
    1 ≤ resolve_length req ∧ resolve_length req ≤ MAX_BITS := by
  obtain ⟨a, isj, jl⟩ := req
  refine ⟨?_, ?_, ?_, ?_⟩
  · intro s k hs hparse
    subst hs
    have hs0 : s ≠ "" := by
      intro h
      subst h
      rw [pyIntOfString_empty] at hparse
      exact Option.noConfusion hparse
    simp [resolve_length, pyOr, PyVal.truthy, hs0, pyInt, hparse]
  · intro k ha hj hl
    subst ha
    subst hj
    subst hl
    simp [resolve_length, pyOr, pyAnd, PyVal.truthy, pyInt]
  · have h : ∀ m : Int, 1 ≤ max 1 (min m MAX_BITS) := fun m => le_max_left 1 _
    exact h _
  · have h : ∀ m : Int, max 1 (min m MAX_BITS) ≤ MAX_BITS :=
      fun m => max_le (by norm_num [MAX_BITS]) (min_le_right _ _)
    exact h _

/-- Witness for C7: the spec's clamp example on a concrete request
carrying the query string value 99999999. -/
theorem resolve_length_clamps_witness :
    resolve_length bigRequest = max 1 (min 99999999 MAX_BITS) ∧
    1 ≤ resolve_length bigRequest ∧
    resolve_length bigRequest ≤ MAX_BITS :=
  ⟨(resolve_length_clamps bigRequest).1 "99999999" 99999999 rfl (by decide),
   (resolve_length_clamps bigRequest).2.2.1,
   (resolve_length_clamps bigRequest).2.2.2⟩
